import Mathlib

/-!
Formal model of the PL/0 CPU simulator (`pl0_cpu_sim.js`) together with its
two optional computation providers: the neural ALU (`neural_alu.js`) and the
NARX math coprocessor (`neural_math_narx.js`).

Modelling conventions.  JavaScript numbers are embedded as exact integers
(`Int`) wherever the code manipulates integer register/memory contents, as
rationals (`Rat`) for the ALU's blending arithmetic (mix factors and error
thresholds), and as reals (`Real`) for the transcendental reference math.
`Math.round` is Mathlib's `round` (equal to `fun x => ⌊x + 1/2⌋`, which is
JavaScript's round-half-up behaviour), `Math.floor` is `Int.floor`,
`Math.trunc` rounds toward zero, and the JavaScript remainder operator `%`
on integers is `Int.tmod` (remainder with the sign of the dividend).
Instructions are modelled at the level the simulator's line parser produces
(register indices, immediates, bracketed address operands, label and
program names); JavaScript arrays used as stacks (`push`/`pop` at the end)
are modelled as Lean lists growing at the head.
-/

namespace PL0

/-- JS helper `clamp(x, lo, hi) = Math.max(lo, Math.min(hi, x))`, on integers. -/
def clampI (x lo hi : Int) : Int := max lo (min hi x)

/-- JS helper `clamp(x, lo, hi) = Math.max(lo, Math.min(hi, x))`, on reals. -/
noncomputable def clampR (x lo hi : ℝ) : ℝ := max lo (min hi x)

/-- The constant `MAX_FX = 0x7fffffff` used by `floatToFx`. -/
def MAX_FX : Int := 2147483647

/-- `fxToFloat(xFx, fxScale) = xFx / fxScale` (pl0_cpu_sim.js). -/
noncomputable def fxToFloat (xFx : Int) (fxScale : ℝ) : ℝ := (xFx : ℝ) / fxScale

/-- `floatToFx(x, fxScale) = clamp(Math.round(x * fxScale), -MAX_FX, MAX_FX)`
(pl0_cpu_sim.js; neural_math_narx.js has an identical copy). -/
noncomputable def floatToFx (x : ℝ) (fxScale : ℝ) : Int :=
  clampI (round (x * fxScale)) (-MAX_FX) MAX_FX

/-- The ten extended unary math opcodes (`FSIN` .. `FSQRT`). -/
inductive FOp
  | FSIN
  | FCOS
  | FTAN
  | FTANH
  | FSINH
  | FCOSH
  | FLN
  | FLOG10
  | FEXP
  | FSQRT
deriving DecidableEq, Repr

/-- `refMathFx(op, xFx, fxScale)` from pl0_cpu_sim.js: the deterministic
reference for the unary math ops used when no unary provider is attached.
It decodes the fixed-point input, clamps it into the op's safe domain,
applies the real function, clamps the output, and re-encodes. -/
noncomputable def refMathFx (op : FOp) (xFx : Int) (fxScale : ℝ) : Int :=
  let x0 := fxToFloat xFx fxScale
  match op with
  | .FSIN => floatToFx (Real.sin (clampR x0 (-Real.pi) Real.pi)) fxScale
  | .FCOS => floatToFx (Real.cos (clampR x0 (-Real.pi) Real.pi)) fxScale
  | .FTAN => floatToFx (clampR (Real.tan (clampR x0 (-1.3) 1.3)) (-8) 8) fxScale
  | .FTANH => floatToFx (Real.tanh (clampR x0 (-3) 3)) fxScale
  | .FSINH => floatToFx (clampR (Real.sinh (clampR x0 (-3) 3)) (-8) 8) fxScale
  | .FCOSH => floatToFx (clampR (Real.cosh (clampR x0 (-3) 3)) 0 10) fxScale
  | .FLN =>
      if x0 ≤ 0 then floatToFx (-16) fxScale
      else floatToFx (clampR (Real.log (clampR x0 (1 / 1000000) 256)) (-16) 16) fxScale
  | .FLOG10 =>
      if x0 ≤ 0 then floatToFx (-16) fxScale
      else floatToFx (clampR (Real.logb 10 (clampR x0 (1 / 1000000) 256)) (-16) 16) fxScale
  | .FEXP => floatToFx (clampR (Real.exp (clampR x0 (-8) 8)) 0 256) fxScale
  | .FSQRT =>
      let x := clampR x0 0 256
      floatToFx (clampR (if x ≤ 0 then 0 else Real.sqrt x) 0 16) fxScale

/-- The four binary arithmetic opcodes handled by the neural ALU. -/
inductive AOp
  | ADD
  | SUB
  | MUL
  | DIV
deriving DecidableEq, Repr

/-- `NeuralALU.divDecode`: how a DIV prediction is decoded to an integer. -/
inductive DivDecode
  | floor
  | round
  | trunc
deriving DecidableEq, Repr

/-- Configuration of `NeuralALU` (neural_alu.js).  The learned nets are
abstracted by `predict`, which models `this.<op>Net.predict(x)` applied to
the feature vector built from the two operands; the nets' internals are an
arbitrary pure function of the operands, which is all the VM-facing
contract depends on. -/
structure ALU where
  scale : ℚ
  mix : ℚ
  safetyFallback : Bool
  fallbackAbsError : ℚ
  divDecode : DivDecode
  predict : AOp → Int → Int → ℚ

/-- `NeuralALU._decodeInt(y, op)`: clamp the raw output into `[-1, 1]`,
rescale by `scale`, and convert to an integer (floor/round/trunc for DIV
according to `divDecode`, `Math.round` otherwise). -/
def decodeIntALU (alu : ALU) (y : ℚ) (op : AOp) : Int :=
  let yy : ℚ := max (-1) (min 1 y) * alu.scale
  match op with
  | .DIV =>
      match alu.divDecode with
      | .trunc => if 0 ≤ yy then ⌊yy⌋ else ⌈yy⌉
      | .round => round yy
      | .floor => ⌊yy⌋
  | _ => round yy

/-- The exact reference computed at the top of `NeuralALU.computeDetailed`:
native integer arithmetic with zero-guarded floor division
(`Math.floor(aInt / bInt)` on integers is `Int.fdiv`). -/
def aluExact : AOp → Int → Int → Int
  | .ADD, a, b => a + b
  | .SUB, a, b => a - b
  | .MUL, a, b => a * b
  | .DIV, a, b => if b = 0 then 0 else Int.fdiv a b

/-- The record returned by `NeuralALU.computeDetailed`. -/
structure ALUResult where
  result : Int
  exact : Int
  pred : Int
  mixed : Int
  usedFallback : Bool
deriving DecidableEq, Repr

/-- `NeuralALU.computeDetailed(op, aInt, bInt)`: compute the exact value,
decode the net's prediction, blend with `Math.round(exact * (1 - mix) +
pred * mix)`, and apply the safety fallback when the blended integer
deviates from the exact value by more than `fallbackAbsError`. -/
def aluComputeDetailed (alu : ALU) (op : AOp) (aInt bInt : Int) : ALUResult :=
  let exact := aluExact op aInt bInt
  let y := alu.predict op aInt bInt
  let pred := decodeIntALU alu y op
  let mixed : Int := round ((exact : ℚ) * (1 - alu.mix) + (pred : ℚ) * alu.mix)
  if alu.safetyFallback = true ∧ ((|mixed - exact| : Int) : ℚ) > alu.fallbackAbsError then
    { result := exact, exact := exact, pred := pred, mixed := mixed, usedFallback := true }
  else
    { result := mixed, exact := exact, pred := pred, mixed := mixed, usedFallback := false }

/-- `NeuralALU.compute(op, aInt, bInt) = computeDetailed(...).result`. -/
def aluCompute (alu : ALU) (op : AOp) (aInt bInt : Int) : Int :=
  (aluComputeDetailed alu op aInt bInt).result

/-- One entry of `DEFAULT_OP_SPECS` (neural_math_narx.js): the bounded
input/output ranges an op is normalized over. -/
structure MathSpec where
  inLo : ℝ
  inHi : ℝ
  outLo : ℝ
  outHi : ℝ

/-- `DEFAULT_OP_SPECS` from neural_math_narx.js. -/
noncomputable def defaultOpSpecs : FOp → MathSpec
  | .FSIN => ⟨-Real.pi, Real.pi, -1, 1⟩
  | .FCOS => ⟨-Real.pi, Real.pi, -1, 1⟩
  | .FTAN => ⟨-1.3, 1.3, -8, 8⟩
  | .FTANH => ⟨-3, 3, -1, 1⟩
  | .FSINH => ⟨-3, 3, -8, 8⟩
  | .FCOSH => ⟨-3, 3, 0, 10⟩
  | .FLN => ⟨1 / 1000000, 256, -16, 16⟩
  | .FLOG10 => ⟨1 / 1000000, 256, -16, 16⟩
  | .FEXP => ⟨-8, 8, 0, 256⟩
  | .FSQRT => ⟨0, 256, 0, 16⟩

/-- `encodeNormFromRange(x, lo, hi)` (neural_math_narx.js). -/
noncomputable def encodeNormFromRange (x lo hi : ℝ) : ℝ :=
  if hi > lo then clampR ((x - lo) / (hi - lo)) 0 1 else 1 / 2

/-- `decodeNormToRange(u, lo, hi)` (neural_math_narx.js). -/
noncomputable def decodeNormToRange (u lo hi : ℝ) : ℝ :=
  lo + clampR u 0 1 * (hi - lo)

/-- `refMathFx(op, xFx, scale)` from neural_math_narx.js (a distinct
function from the simulator's `refMathFx`): clamps the decoded input into
the `DEFAULT_OP_SPECS` range before dispatching. -/
noncomputable def refMathFxNarx (op : FOp) (xFx : Int) (scale : ℝ) : Int :=
  let spec := defaultOpSpecs op
  let x := clampR (fxToFloat xFx scale) spec.inLo spec.inHi
  match op with
  | .FSIN => floatToFx (Real.sin x) scale
  | .FCOS => floatToFx (Real.cos x) scale
  | .FTAN => floatToFx (clampR (Real.tan x) (-8) 8) scale
  | .FTANH => floatToFx (Real.tanh x) scale
  | .FSINH => floatToFx (clampR (Real.sinh x) (-8) 8) scale
  | .FCOSH => floatToFx (clampR (Real.cosh x) 0 10) scale
  | .FLN =>
      if x ≤ 0 then floatToFx (defaultOpSpecs .FLN).outLo scale
      else floatToFx (clampR (Real.log x) (-16) 16) scale
  | .FLOG10 =>
      if x ≤ 0 then floatToFx (defaultOpSpecs .FLOG10).outLo scale
      else floatToFx (clampR (Real.logb 10 x) (-16) 16) scale
  | .FEXP => floatToFx (clampR (Real.exp x) 0 256) scale
  | .FSQRT => floatToFx (clampR (if x ≤ 0 then 0 else Real.sqrt x) 0 16) scale

/-- Per-op NARX lag histories (`this.state[op]` in neural_math_narx.js).
`inHist`/`outHist` are the input/output lag buffers; the JS arrays are
shifted with `pop()` (drop last) and `unshift(v)` (cons at the front). -/
structure NarxHist where
  inHist : List ℝ
  outHist : List ℝ

/-- The record returned by `NeuralMathNARX.computeDetailed`. -/
structure NarxResult where
  result : Int
  pred : Int
  exact : Int
  usedFallback : Bool
  outNorm : ℝ
  exactNorm : ℝ
  predNorm : ℝ

/-- Configuration of `NeuralMathNARX` (neural_math_narx.js).  `forward`
abstracts `this.nets[op].forward(combined).output`, the per-op NARX
network applied to the concatenated lag histories. -/
structure NarxProvider where
  scale : ℝ
  mix : ℝ
  safetyFallback : Bool
  fallbackAbsError : ℝ
  opSpec : FOp → MathSpec
  forward : FOp → List ℝ → ℝ

/-- `NeuralMathNARX.computeDetailed(op, xFx)`: shift the current input into
the input history, run the NARX net on the concatenated histories, compute
the exact reference and its normalization, blend, apply the safety
fallback on the normalized error, shift the output history, and decode the
result back to fixed point.  The mutated per-op state is returned
alongside the result record. -/
noncomputable def narxComputeDetailed (mp : NarxProvider) (op : FOp) (xFx : Int)
    (st : FOp → NarxHist) : NarxResult × (FOp → NarxHist) :=
  let spec := mp.opSpec op
  let s := st op
  let x := fxToFloat xFx mp.scale
  let inNorm := encodeNormFromRange x spec.inLo spec.inHi
  let inHist := inNorm :: s.inHist.dropLast
  let combined := inHist ++ s.outHist
  let ySig := mp.forward op combined
  let exactFx := refMathFxNarx op xFx mp.scale
  let exact := fxToFloat exactFx mp.scale
  let exactNorm := encodeNormFromRange exact spec.outLo spec.outHi
  let mixedNorm := clampR (exactNorm * (1 - mp.mix) + ySig * mp.mix) 0 1
  let absErr := |ySig - exactNorm|
  let outNorm := if mp.safetyFallback = true ∧ absErr > mp.fallbackAbsError then exactNorm else mixedNorm
  let usedFallback : Bool := mp.safetyFallback = true ∧ absErr > mp.fallbackAbsError
  let outHist := clampR outNorm 0 1 :: s.outHist.dropLast
  let result := floatToFx (decodeNormToRange outNorm spec.outLo spec.outHi) mp.scale
  let pred := floatToFx (decodeNormToRange ySig spec.outLo spec.outHi) mp.scale
  ({ result := result, pred := pred, exact := exactFx, usedFallback := usedFallback,
     outNorm := outNorm, exactNorm := exactNorm, predNorm := ySig },
   Function.update st op ⟨inHist, outHist⟩)

/-- `NeuralMathNARX.compute(op, xFx)` result component. -/
noncomputable def narxCompute (mp : NarxProvider) (op : FOp) (xFx : Int)
    (st : FOp → NarxHist) : Int :=
  (narxComputeDetailed mp op xFx st).1.result

/-- A bracketed address operand, `[50]` or `[r1]`. -/
inductive AddrSpec
  | imm (addr : Int)
  | reg (r : Nat)
deriving DecidableEq, Repr

/-- Instructions at the level `PL0CPU.execute`'s line parser produces.
`labelDecl` is a line ending in `:`; `blank` is an empty line (both are
skipped by the dispatch loop). -/
inductive Instr
  | blank
  | labelDecl (name : String)
  | loadImm (r : Nat) (imm : Int)
  | loadMem (r : Nat) (a : AddrSpec)
  | store (r : Nat) (a : AddrSpec)
  | peek (r : Nat) (a : AddrSpec)
  | poke (r : Nat) (a : AddrSpec)
  | push (r : Nat)
  | pop (r : Nat)
  | add (x y : Nat)
  | sub (x y : Nat)
  | mul (x y : Nat)
  | div (x y : Nat)
  | fop (op : FOp) (r : Nat)
  | jmp (label : String)
  | jz (r : Nat) (label : String)
  | jnz (r : Nat) (label : String)
  | call (label : String)
  | pl0call (name : String)
  | ret
  | halt
deriving DecidableEq, Repr

/-- Entries of `this.callStack`: a bare return index (from `CALL`) or a
full context frame (from `PL0CALL`). -/
inductive StackEntry
  | retIdx (n : Nat)
  | frame (instructions : List Instr) (labelMap : List (String × Nat)) (returnPointer : Nat)
deriving DecidableEq, Repr

/-- Fatal execution errors thrown by `PL0CPU.execute`. -/
inductive ExecError
  | divisionByZero
  | stackOverflow
  | stackUnderflow
  | unknownLabel (label : String)
  | unknownProgram (name : String)
  | maxStepsExceeded
deriving DecidableEq, Repr

/-- Machine state of `PL0CPU`.  `mathState` carries the per-op lag
histories of an attached `NeuralMathNARX` provider (in JS those live in
the provider object the CPU holds a reference to). -/
structure CPUState where
  regs : List Int
  memory : List Int
  instructions : List Instr
  pointer : Nat
  running : Bool
  labelMap : List (String × Nat)
  callStack : List StackEntry
  dataStack : List Int
  dataStackMax : Nat
  mathState : FOp → NarxHist

/-- Execution-time configuration: the Program Registry (`PL0Programs`),
the optional providers, and the fixed-point scale. -/
structure Config where
  registry : List (String × List Instr)
  alu : Option ALU
  math : Option NarxProvider
  fxScale : ℝ

/-- `buildLabelMap()`: scan the instruction list and record the index of
every label line.  Later occurrences of the same name are prepended, so
`List.lookup` (first match) gives the JS object's last-assignment-wins
behaviour. -/
def buildLabelMap (instrs : List Instr) : List (String × Nat) :=
  instrs.enum.foldl
    (fun acc p =>
      match p.2 with
      | .labelDecl n => (n, p.1) :: acc
      | _ => acc)
    []

/-- Read register `r` (`this.regs[rX]`). -/
def getReg (s : CPUState) (r : Nat) : Int := s.regs.getD r 0

/-- Write register `r` (`this.regs[rX] = v`). -/
def setReg (s : CPUState) (r : Nat) (v : Int) : CPUState :=
  { s with regs := s.regs.set r v }

/-- Advance the instruction pointer (`this.pointer++`). -/
def advance (s : CPUState) : CPUState := { s with pointer := s.pointer + 1 }

/-- The raw integer operand of an address spec: the register's current
content for `[rY]`, the literal for `[addr]`. -/
def addrOperand (s : CPUState) (a : AddrSpec) : Int :=
  match a with
  | .reg r => getReg s r
  | .imm n => n

/-- `PL0CPU._loadAddr(addrSpec)`: wrap the operand into memory range with
`((addr % m) + m) % m` (JS `%` is `Int.tmod`). -/
def loadAddr (s : CPUState) (a : AddrSpec) : Int :=
  let addr := addrOperand s a
  let m : Int := (s.memory.length : Int)
  (addr.tmod m + m).tmod m

/-- The instruction currently under the pointer (the dispatch loop only
fetches while `pointer < instructions.length`). -/
def instrAt (s : CPUState) : Instr := s.instructions.getD s.pointer .blank

/-- One iteration of the body of `PL0CPU.execute`'s dispatch loop: fetch
the line under the pointer and execute it. -/
noncomputable def stepInstr (cfg : Config) (s : CPUState) : Except ExecError CPUState :=
  match instrAt s with
  | .blank => .ok (advance s)
  | .labelDecl _ => .ok (advance s)
  | .loadImm r v => .ok (advance (setReg s r v))
  | .loadMem r a =>
      .ok (advance (setReg s r (s.memory.getD (loadAddr s a).toNat 0)))
  | .store r a =>
      .ok (advance { s with memory := s.memory.set (loadAddr s a).toNat (getReg s r) })
  | .peek r a =>
      .ok (advance (setReg s r (s.memory.getD (loadAddr s a).toNat 0)))
  | .poke r a =>
      .ok (advance { s with memory := s.memory.set (loadAddr s a).toNat (getReg s r) })
  | .push r =>
      if s.dataStack.length ≥ s.dataStackMax then .error .stackOverflow
      else .ok (advance { s with dataStack := getReg s r :: s.dataStack })
  | .pop r =>
      match s.dataStack with
      | [] => .error .stackUnderflow
      | v :: rest => .ok (advance (setReg { s with dataStack := rest } r v))
  | .add x y =>
      match cfg.alu with
      | some alu => .ok (advance (setReg s x (aluComputeDetailed alu .ADD (getReg s x) (getReg s y)).result))
      | none => .ok (advance (setReg s x (getReg s x + getReg s y)))
  | .sub x y =>
      match cfg.alu with
      | some alu => .ok (advance (setReg s x (aluComputeDetailed alu .SUB (getReg s x) (getReg s y)).result))
      | none => .ok (advance (setReg s x (getReg s x - getReg s y)))
  | .mul x y =>
      match cfg.alu with
      | some alu => .ok (advance (setReg s x (aluComputeDetailed alu .MUL (getReg s x) (getReg s y)).result))
      | none => .ok (advance (setReg s x (getReg s x * getReg s y)))
  | .div x y =>
      if getReg s y = 0 then .error .divisionByZero
      else
        match cfg.alu with
        | some alu => .ok (advance (setReg s x (aluComputeDetailed alu .DIV (getReg s x) (getReg s y)).result))
        | none => .ok (advance (setReg s x (Int.fdiv (getReg s x) (getReg s y))))
  | .fop op r =>
      match cfg.math with
      | some mp =>
          let d := narxComputeDetailed mp op (getReg s r) s.mathState
          .ok (advance { setReg s r d.1.result with mathState := d.2 })
      | none => .ok (advance (setReg s r (refMathFx op (getReg s r) cfg.fxScale)))
  | .jmp label =>
      match s.labelMap.lookup label with
      | none => .error (.unknownLabel label)
      | some t => .ok { s with pointer := t }
  | .jz r label =>
      match s.labelMap.lookup label with
      | none => .error (.unknownLabel label)
      | some t => .ok { s with pointer := if getReg s r = 0 then t else s.pointer + 1 }
  | .jnz r label =>
      match s.labelMap.lookup label with
      | none => .error (.unknownLabel label)
      | some t => .ok { s with pointer := if getReg s r ≠ 0 then t else s.pointer + 1 }
  | .call label =>
      match s.labelMap.lookup label with
      | none => .error (.unknownLabel label)
      | some t => .ok { s with callStack := .retIdx (s.pointer + 1) :: s.callStack, pointer := t }
  | .pl0call name =>
      match cfg.registry.lookup name with
      | none => .error (.unknownProgram name)
      | some newInstrs =>
          .ok { s with
                callStack := .frame s.instructions s.labelMap (s.pointer + 1) :: s.callStack,
                instructions := newInstrs,
                labelMap := buildLabelMap newInstrs,
                pointer := 0 }
  | .ret =>
      match s.callStack with
      | [] => .ok { s with running := false }
      | .retIdx n :: rest => .ok { s with callStack := rest, pointer := n }
      | .frame instrs lm rp :: rest =>
          .ok { s with callStack := rest, instructions := instrs, labelMap := lm, pointer := rp }
  | .halt => .ok { s with running := false, pointer := s.pointer + 1 }

/-- The `while` loop of `PL0CPU.execute`: while running and in bounds,
check the step counter (`if (steps++ > maxSteps) throw`), then dispatch
one line.  The local `steps` counter is threaded and returned with the
final state. -/
noncomputable def loop (cfg : Config) (maxSteps : Nat) (steps : Nat) (s : CPUState) :
    Except ExecError (CPUState × Nat) :=
  if s.running = true ∧ s.pointer < s.instructions.length then
    if _hgt : steps > maxSteps then .error .maxStepsExceeded
    else
      match stepInstr cfg s with
      | .error e => .error e
      | .ok s' => loop cfg maxSteps (steps + 1) s'
  else .ok (s, steps)
termination_by maxSteps + 1 - steps
decreasing_by omega

/-- `PL0CPU.execute(maxSteps)`: rebuild the label map, reset the pointer
and running flag, and run the dispatch loop. -/
noncomputable def execute (cfg : Config) (s : CPUState) (maxSteps : Nat) :
    Except ExecError (CPUState × Nat) :=
  loop cfg maxSteps 0
    { s with labelMap := buildLabelMap s.instructions, pointer := 0, running := true }

/-! ### Generic lemmas about the dispatch loop and address wrapping -/

/-- JS double-`%` wraparound (`((addr % m) + m) % m`) computes the
Euclidean remainder for a positive modulus. -/
theorem tmod_wrap (a m : Int) (hm : 0 < m) : (a.tmod m + m).tmod m = a.emod m := by
  have hlt : a.tmod m < m := Int.tmod_lt_of_pos a hm
  have hneg : -m < a.tmod m := by
    rcases le_or_lt 0 a with ha | ha
    · have := Int.tmod_nonneg m ha
      omega
    · have h1 : (-a).tmod m < m := Int.tmod_lt_of_pos (-a) hm
      have h2 : (-a).tmod m = -(a.tmod m) := by
        rw [Int.tmod_def, Int.tmod_def, Int.neg_tdiv]
        ring
      omega
  have h0 : (0 : Int) ≤ a.tmod m + m := by omega
  rw [Int.tmod_eq_emod h0 hm.le]
  have hrw : a.tmod m + m = a + m * (1 - a.tdiv m) := by
    rw [Int.tmod_def]; ring
  rw [hrw, Int.add_mul_emod_self_left]
  rfl

/-- The loop exits with the current state when the machine has stopped or
the pointer ran past the instruction list. -/
theorem loop_done (cfg : Config) (maxSteps steps : Nat) (s : CPUState)
    (h : ¬(s.running = true ∧ s.pointer < s.instructions.length)) :
    loop cfg maxSteps steps s = .ok (s, steps) := by
  rw [loop]
  simp [h]

/-- The loop raises the runaway error when the counter already exceeds
`maxSteps` while the machine is still running in bounds. -/
theorem loop_runaway (cfg : Config) (maxSteps steps : Nat) (s : CPUState)
    (hr : s.running = true) (hp : s.pointer < s.instructions.length)
    (hgt : steps > maxSteps) :
    loop cfg maxSteps steps s = .error .maxStepsExceeded := by
  rw [loop]
  simp [hr, hp, hgt]

/-- One successful dispatch unfolds the loop by one iteration. -/
theorem loop_cont (cfg : Config) (maxSteps steps : Nat) (s s' : CPUState)
    (hr : s.running = true) (hp : s.pointer < s.instructions.length)
    (hle : steps ≤ maxSteps) (hstep : stepInstr cfg s = .ok s') :
    loop cfg maxSteps steps s = loop cfg maxSteps (steps + 1) s' := by
  rw [loop]
  simp [hr, hp, Nat.not_lt.mpr hle, hstep]

/-- A failing dispatch propagates its error out of the loop. -/
theorem loop_err (cfg : Config) (maxSteps steps : Nat) (s : CPUState) (e : ExecError)
    (hr : s.running = true) (hp : s.pointer < s.instructions.length)
    (hle : steps ≤ maxSteps) (hstep : stepInstr cfg s = .error e) :
    loop cfg maxSteps steps s = .error e := by
  rw [loop]
  simp [hr, hp, Nat.not_lt.mpr hle, hstep]

/-! ### Concrete fixtures used by witnesses and counterexamples -/

/-- A provider-free configuration (no `neuralALU`, no `neuralMath`,
default `fxScale = 65536`, empty Program Registry). -/
noncomputable def cfg0 : Config :=
  { registry := [], alu := none, math := none, fxScale := 65536 }

/-- A fresh machine state over the given registers, memory, instructions
(`pointer = 0`, empty stacks, default `dataStackSize = 256`). -/
def mkState (regs mem : List Int) (instrs : List Instr) : CPUState :=
  { regs := regs, memory := mem, instructions := instrs, pointer := 0, running := true,
    labelMap := [], callStack := [], dataStack := [], dataStackMax := 256,
    mathState := fun _ => ⟨[], []⟩ }

/-- C1: with no binary provider configured, a `DIV` instruction with a
nonzero divisor register stores `floor(a/b)` (`Int.fdiv`, floor division,
also for negative operands) into the destination register and advances;
with a zero divisor register it raises the fatal division-by-zero error. -/
theorem c1_div_floor_semantics (cfg : Config) (s : CPUState) (x y : Nat)
    (hinstr : instrAt s = .div x y) (halu : cfg.alu = none) :
    (getReg s y ≠ 0 →
      stepInstr cfg s = .ok (advance (setReg s x (Int.fdiv (getReg s x) (getReg s y))))) ∧
    (getReg s y = 0 → stepInstr cfg s = .error .divisionByZero) := by
  constructor
  · intro hy
    simp [stepInstr, hinstr, hy, halu]
  · intro hy
    simp [stepInstr, hinstr, hy]

/-- C1 witness: `DIV` on registers holding `-7` and `2` stores `-4`
(floor division of negative operands), and `DIV` by a zero register is the
division-by-zero error. -/
theorem c1_div_floor_semantics_witness :
    stepInstr cfg0 (mkState [-7, 2] [] [.div 0 1]) =
      .ok (advance (setReg (mkState [-7, 2] [] [.div 0 1]) 0 (-4))) ∧
    stepInstr cfg0 (mkState [-7, 0] [] [.div 0 1]) = .error .divisionByZero := by
  constructor
  · have h := (c1_div_floor_semantics cfg0 (mkState [-7, 2] [] [.div 0 1]) 0 1
      (by decide) rfl).1 (by decide)
    have hv : Int.fdiv (getReg (mkState [-7, 2] [] [.div 0 1]) 0)
        (getReg (mkState [-7, 2] [] [.div 0 1]) 1) = -4 := by decide
    rw [hv] at h
    exact h
  · exact (c1_div_floor_semantics cfg0 (mkState [-7, 0] [] [.div 0 1]) 0 1
      (by decide) rfl).2 (by decide)

/-- C2: `PL0CALL name` with a registered callee pushes a full context
frame (current instruction sequence, current label table, return index
`pointer + 1`), switches to the callee with a freshly rebuilt label table
and pointer `0`; `PL0CALL` of an unregistered name is a fatal error; `RET`
with a frame on top restores the caller's sequence and label table and
resumes at the saved return index (the instruction after the `PL0CALL`);
`RET` on an empty call stack stops the machine normally (no error). -/
theorem c2_pl0call_ret_context (cfg : Config) (s : CPUState) :
    (∀ name prog, instrAt s = .pl0call name → cfg.registry.lookup name = some prog →
      stepInstr cfg s = .ok { s with
        callStack := .frame s.instructions s.labelMap (s.pointer + 1) :: s.callStack,
        instructions := prog, labelMap := buildLabelMap prog, pointer := 0 }) ∧
    (∀ name, instrAt s = .pl0call name → cfg.registry.lookup name = none →
      stepInstr cfg s = .error (.unknownProgram name)) ∧
    (∀ instrs lm rp rest, instrAt s = .ret → s.callStack = .frame instrs lm rp :: rest →
      stepInstr cfg s =
        .ok { s with callStack := rest, instructions := instrs, labelMap := lm, pointer := rp }) ∧
    (instrAt s = .ret → s.callStack = [] →
      stepInstr cfg s = .ok { s with running := false }) := by
  refine ⟨?_, ?_, ?_, ?_⟩
  · intro name prog hinstr hreg
    simp [stepInstr, hinstr, hreg]
  · intro name hinstr hreg
    simp [stepInstr, hinstr, hreg]
  · intro instrs lm rp rest hinstr hstack
    simp [stepInstr, hinstr, hstack]
  · intro hinstr hstack
    simp [stepInstr, hinstr, hstack]

/-- C2 witness: a caller `[PL0CALL p, HALT]` with registry `p ↦ [RET]`:
the call switches to `[RET]` with return index 1 saved in a frame; the
callee's `RET` restores the caller's sequence and label table and resumes
at pointer 1 (the instruction after the `PL0CALL`); `RET` on an empty call
stack stops the machine; `PL0CALL q` with `q` unregistered errors. -/
theorem c2_pl0call_ret_context_witness :
    (stepInstr { cfg0 with registry := [("p", [.ret])] }
        (mkState [] [] [.pl0call "p", .halt]) =
      .ok { mkState [] [] [.pl0call "p", .halt] with
            callStack := [.frame [.pl0call "p", .halt] [] 1],
            instructions := [.ret], labelMap := buildLabelMap [.ret], pointer := 0 }) ∧
    (stepInstr { cfg0 with registry := [("p", [.ret])] }
        { mkState [] [] [.ret] with
          callStack := [.frame [.pl0call "p", .halt] [] 1] } =
      .ok { { mkState [] [] [.ret] with
              callStack := [.frame [.pl0call "p", .halt] [] 1] } with
            callStack := [], instructions := [.pl0call "p", .halt], labelMap := [], pointer := 1 }) ∧
    (stepInstr cfg0 (mkState [] [] [.ret]) =
      .ok { mkState [] [] [.ret] with running := false }) ∧
    (stepInstr { cfg0 with registry := [("p", [.ret])] }
        (mkState [] [] [.pl0call "q"]) = .error (.unknownProgram "q")) := by
  refine ⟨?_, ?_, ?_, ?_⟩
  · exact (c2_pl0call_ret_context { cfg0 with registry := [("p", [.ret])] }
      (mkState [] [] [.pl0call "p", .halt])).1 "p" [.ret] (by decide) (by decide)
  · exact (c2_pl0call_ret_context { cfg0 with registry := [("p", [.ret])] }
      { mkState [] [] [.ret] with
        callStack := [.frame [.pl0call "p", .halt] [] 1] }).2.2.1
      [.pl0call "p", .halt] [] 1 [] (by decide) (by decide)
  · exact (c2_pl0call_ret_context cfg0 (mkState [] [] [.ret])).2.2.2 (by decide) (by decide)
  · exact (c2_pl0call_ret_context { cfg0 with registry := [("p", [.ret])] }
      (mkState [] [] [.pl0call "q"])).2.1 "q" (by decide) (by decide)

/-- C5: for every memory operand (absolute literal or register-indirect,
negative included), the effective address computed by `_loadAddr` is the
Euclidean remainder of the operand by the memory size, hence lies in
`[0, memory-size)`; `LOAD`/`PEEK` read and `STORE`/`POKE` write only at
that normalized index. -/
theorem c5_address_normalization (cfg : Config) (s : CPUState) (a : AddrSpec)
    (hm : 0 < s.memory.length) :
    loadAddr s a = (addrOperand s a).emod (s.memory.length : Int) ∧
    0 ≤ loadAddr s a ∧ loadAddr s a < (s.memory.length : Int) ∧
    (loadAddr s a).toNat < s.memory.length ∧
    (∀ r, instrAt s = .loadMem r a →
      stepInstr cfg s = .ok (advance (setReg s r (s.memory.getD (loadAddr s a).toNat 0)))) ∧
    (∀ r, instrAt s = .peek r a →
      stepInstr cfg s = .ok (advance (setReg s r (s.memory.getD (loadAddr s a).toNat 0)))) ∧
    (∀ r, instrAt s = .store r a →
      stepInstr cfg s = .ok (advance { s with
        memory := s.memory.set (loadAddr s a).toNat (getReg s r) })) ∧
    (∀ r, instrAt s = .poke r a →
      stepInstr cfg s = .ok (advance { s with
        memory := s.memory.set (loadAddr s a).toNat (getReg s r) })) := by
  have hm' : (0 : Int) < (s.memory.length : Int) := by exact_mod_cast hm
  have heq : loadAddr s a = (addrOperand s a).emod (s.memory.length : Int) := by
    unfold loadAddr
    exact tmod_wrap (addrOperand s a) (s.memory.length : Int) hm'
  have h0 : 0 ≤ loadAddr s a := by
    rw [heq]
    exact Int.emod_nonneg _ (by omega)
  have hlt : loadAddr s a < (s.memory.length : Int) := by
    rw [heq]
    exact Int.emod_lt_of_pos _ hm'
  refine ⟨heq, h0, hlt, by omega, ?_, ?_, ?_, ?_⟩
  · intro r hinstr
    simp [stepInstr, hinstr]
  · intro r hinstr
    simp [stepInstr, hinstr]
  · intro r hinstr
    simp [stepInstr, hinstr]
  · intro r hinstr
    simp [stepInstr, hinstr]

/-- C5 witness: on a 4-cell memory, the operand `-5` normalizes to the
Euclidean remainder 3, and a `STORE` through it writes exactly cell 3. -/
theorem c5_address_normalization_witness :
    loadAddr (mkState [7] [0, 0, 0, 0] [.store 0 (.imm (-5))]) (.imm (-5)) = 3 ∧
    stepInstr cfg0 (mkState [7] [0, 0, 0, 0] [.store 0 (.imm (-5))]) =
      .ok (advance { mkState [7] [0, 0, 0, 0] [.store 0 (.imm (-5))] with
        memory := [0, 0, 0, 7] }) := by
  have h := c5_address_normalization cfg0
    (mkState [7] [0, 0, 0, 0] [.store 0 (.imm (-5))]) (.imm (-5)) (by decide)
  have haddr : loadAddr (mkState [7] [0, 0, 0, 0] [.store 0 (.imm (-5))]) (.imm (-5)) = 3 := by
    rw [h.1]
    decide
  refine ⟨haddr, ?_⟩
  have hstep := h.2.2.2.2.2.2.1 0 (by decide)
  rw [haddr] at hstep
  simpa using hstep

/-- C9: a `DIV` whose divisor register holds 0 raises the fatal
division-by-zero error for every configuration, in particular whatever
binary provider is attached — the provider is never consulted for a zero
divisor from VM dispatch — while the provider's own zero-guarded exact
path would return `exact = 0` for a zero divisor. -/
theorem c9_div_zero_before_provider (cfg : Config) (s : CPUState) (x y : Nat)
    (hinstr : instrAt s = .div x y) (hzero : getReg s y = 0) :
    stepInstr cfg s = .error .divisionByZero ∧
    (∀ (alu : ALU) (a : Int), (aluComputeDetailed alu .DIV a 0).exact = 0) := by
  constructor
  · simp [stepInstr, hinstr, hzero]
  · intro alu a
    simp only [aluComputeDetailed, aluExact]
    split <;> split <;> simp_all

/-- A binary provider with a constant-zero net, pure-neural mix, safety
fallback enabled with threshold 2, and floor DIV decoding (the `main`
defaults). -/
def alu0 : ALU :=
  { scale := 65536, mix := 1, safetyFallback := true, fallbackAbsError := 2,
    divDecode := .floor, predict := fun _ _ _ => 0 }

/-- C9 witness: with the binary provider `alu0` attached, `DIV` on
registers `5` and `0` still errors out before the provider is consulted,
and that provider's zero-guarded exact value at divisor 0 is 0. -/
theorem c9_div_zero_before_provider_witness :
    stepInstr { cfg0 with alu := some alu0 } (mkState [5, 0] [] [.div 0 1]) =
      .error .divisionByZero ∧
    (aluComputeDetailed alu0 .DIV 5 0).exact = 0 := by
  have h := c9_div_zero_before_provider { cfg0 with alu := some alu0 }
    (mkState [5, 0] [] [.div 0 1]) 0 1 (by decide) (by decide)
  exact ⟨h.1, h.2 alu0 5⟩

/-- An ALU whose net predicts the raw value `3/65536` for every input
(decoding to the integer prediction 3), with mix `4/5`, safety fallback
enabled and absolute-error threshold 2. -/
def alu1 : ALU :=
  { scale := 65536, mix := 4 / 5, safetyFallback := true, fallbackAbsError := 2,
    divDecode := .floor, predict := fun _ _ _ => 3 / 65536 }

/-- C3 counterexample: for `ADD 0 0` under `alu1` the claim's unrounded
blended value `exact * (1 - mix) + pred * mix = 12/5` differs from the
exact value 0 by more than the threshold `T = 2`, yet the code compares
the *rounded* blend `round(12/5) = 2` against `T`, reports
`usedFallback = false`, and returns the rounded blend 2, not the exact 0. -/
theorem c3_blend_counterexample :
    (0 : ℚ) ≤ alu1.mix ∧ alu1.mix ≤ 1 ∧ alu1.safetyFallback = true ∧
    |((aluComputeDetailed alu1 .ADD 0 0).exact : ℚ) * (1 - alu1.mix) +
        ((aluComputeDetailed alu1 .ADD 0 0).pred : ℚ) * alu1.mix -
        ((aluComputeDetailed alu1 .ADD 0 0).exact : ℚ)| > alu1.fallbackAbsError ∧
    (aluComputeDetailed alu1 .ADD 0 0).usedFallback = false ∧
    (aluComputeDetailed alu1 .ADD 0 0).result ≠ (aluComputeDetailed alu1 .ADD 0 0).exact := by
  have hd : aluComputeDetailed alu1 .ADD 0 0 =
      { result := 2, exact := 0, pred := 3, mixed := 2, usedFallback := false } := by
    simp only [aluComputeDetailed, aluExact, decodeIntALU, alu1]
    norm_num [round_eq]
  refine ⟨by norm_num [alu1], by norm_num [alu1], rfl, ?_, ?_, ?_⟩
  · rw [hd]
    norm_num [alu1]
    rw [abs_of_nonneg] <;> norm_num
  · rw [hd]
  · rw [hd]
    norm_num

/-- C3 (amended): the blended value actually produced is
`round(exact * (1 - mix) + pred * mix)`; with the safety fallback enabled,
whenever that rounded blend deviates from the exact value by more than the
threshold, the diagnostics report `usedFallback = true` and the result —
which is what the VM stores into the destination register on `ADD` — is
the exact value. -/
theorem c3_blend_fallback_amended (alu : ALU) (op : AOp) (a b : Int)
    (_hmix0 : (0 : ℚ) ≤ alu.mix) (_hmix1 : alu.mix ≤ 1) (hsf : alu.safetyFallback = true) :
    (aluComputeDetailed alu op a b).mixed =
      round ((aluExact op a b : ℚ) * (1 - alu.mix) +
        ((aluComputeDetailed alu op a b).pred : ℚ) * alu.mix) ∧
    (((|(aluComputeDetailed alu op a b).mixed - aluExact op a b| : Int) : ℚ) >
        alu.fallbackAbsError →
      (aluComputeDetailed alu op a b).usedFallback = true ∧
      (aluComputeDetailed alu op a b).result = aluExact op a b) ∧
    (∀ (cfg : Config) (s : CPUState) (x y : Nat), cfg.alu = some alu → instrAt s = .add x y →
      stepInstr cfg s =
        .ok (advance (setReg s x
          (aluComputeDetailed alu .ADD (getReg s x) (getReg s y)).result))) := by
  have hmixed : (aluComputeDetailed alu op a b).mixed =
      round ((aluExact op a b : ℚ) * (1 - alu.mix) +
        ((aluComputeDetailed alu op a b).pred : ℚ) * alu.mix) := by
    simp only [aluComputeDetailed]
    split <;> rfl
  have hpred : (aluComputeDetailed alu op a b).pred =
      decodeIntALU alu (alu.predict op a b) op := by
    simp only [aluComputeDetailed]
    split <;> rfl
  refine ⟨hmixed, ?_, ?_⟩
  · intro hgt
    rw [hmixed, hpred] at hgt
    simp only [aluComputeDetailed]
    rw [if_pos ⟨hsf, hgt⟩]
    exact ⟨rfl, rfl⟩
  · intro cfg s x y halu hinstr
    simp [stepInstr, hinstr, halu]

/-- An ALU like `alu1` but whose net predicts the saturating raw value 1
(decoding to prediction 65536), so the rounded blend 52429 trips the
safety fallback. -/
def alu2 : ALU :=
  { scale := 65536, mix := 4 / 5, safetyFallback := true, fallbackAbsError := 2,
    divDecode := .floor, predict := fun _ _ _ => 1 }

/-- C3 witness: under `alu2`, `ADD 0 0` blends to `round(65536 * 4/5) =
52429`, which exceeds the threshold 2, so the fallback fires and the
result is the exact value 0. -/
theorem c3_blend_fallback_amended_witness :
    (aluComputeDetailed alu2 .ADD 0 0).mixed =
      round ((aluExact .ADD 0 0 : ℚ) * (1 - alu2.mix) +
        ((aluComputeDetailed alu2 .ADD 0 0).pred : ℚ) * alu2.mix) ∧
    (aluComputeDetailed alu2 .ADD 0 0).usedFallback = true ∧
    (aluComputeDetailed alu2 .ADD 0 0).result = 0 := by
  have h := c3_blend_fallback_amended alu2 .ADD 0 0 (by norm_num [alu2]) (by norm_num [alu2]) rfl
  have hd : aluComputeDetailed alu2 .ADD 0 0 =
      { result := 0, exact := 0, pred := 65536, mixed := 52429, usedFallback := true } := by
    simp only [aluComputeDetailed, aluExact, decodeIntALU, alu2]
    norm_num [round_eq]
  have h2 := h.2.1 (by rw [hd]; norm_num [aluExact, alu2])
  exact ⟨h.1, h2.1, by rw [h2.2]; norm_num [aluExact]⟩

/-- C4 counterexample: encoding clamps to `MAX_FX = 2^31 - 1`, so the
real value `2^31 + 1` at scale 1 decodes back to `2^31 - 1`, an error of
2, far beyond the claimed bound `0.5 / 1`. -/
theorem c4_roundtrip_counterexample :
    |fxToFloat (floatToFx 2147483649 1) 1 - 2147483649| > 1 / (2 * 1) := by
  have henc : floatToFx 2147483649 1 = 2147483647 := by
    unfold floatToFx clampI
    have h1 : ((2147483649 : ℝ) * 1) = ((2147483649 : Int) : ℝ) := by norm_num
    rw [h1, round_intCast]
    decide
  rw [henc]
  unfold fxToFloat
  norm_num

/-- C4 (amended): whenever `round(v * s)` lies within the clamp range
`[-MAX_FX, MAX_FX]` (so the encoder does not saturate), the decoded value
differs from `v` by at most `0.5 / s`, for every real `v` and positive
integer scale `s`. -/
theorem c4_roundtrip_amended (v : ℝ) (s : ℕ) (hs : 0 < s)
    (hrange : |round (v * (s : ℝ))| ≤ MAX_FX) :
    |fxToFloat (floatToFx v (s : ℝ)) (s : ℝ) - v| ≤ 1 / (2 * (s : ℝ)) := by
  have hsR : (0 : ℝ) < (s : ℝ) := by exact_mod_cast hs
  have henc : floatToFx v (s : ℝ) = round (v * (s : ℝ)) := by
    unfold floatToFx clampI
    have := abs_le.mp hrange
    omega
  rw [henc]
  unfold fxToFloat
  have hne : (s : ℝ) ≠ 0 := ne_of_gt hsR
  have hdiff : (round (v * (s : ℝ)) : ℝ) / (s : ℝ) - v =
      ((round (v * (s : ℝ)) : ℝ) - v * (s : ℝ)) / (s : ℝ) := by
    field_simp
    ring
  rw [hdiff, abs_div, abs_of_pos hsR]
  rw [div_le_div_iff₀ hsR (by positivity)]
  have hround : |(round (v * (s : ℝ)) : ℝ) - v * (s : ℝ)| ≤ 1 / 2 := by
    rw [abs_sub_comm]
    exact abs_sub_round (v * (s : ℝ))
  calc |(round (v * (s : ℝ)) : ℝ) - v * (s : ℝ)| * (2 * (s : ℝ))
      ≤ (1 / 2) * (2 * (s : ℝ)) := by
        apply mul_le_mul_of_nonneg_right hround
        positivity
    _ = 1 * (s : ℝ) := by ring

/-- C4 witness: `v = 3/2` at scale 1 encodes to `round(3/2) = 2` (inside
the clamp range) and decodes to 2, within the `0.5` bound. -/
theorem c4_roundtrip_amended_witness :
    |round ((3 / 2 : ℝ) * ((1 : ℕ) : ℝ))| ≤ MAX_FX ∧
    |fxToFloat (floatToFx (3 / 2 : ℝ) ((1 : ℕ) : ℝ)) ((1 : ℕ) : ℝ) - 3 / 2| ≤
      1 / (2 * ((1 : ℕ) : ℝ)) := by
  have hround : round ((3 / 2 : ℝ) * ((1 : ℕ) : ℝ)) = 2 := by
    norm_num [round_eq]
  constructor
  · rw [hround]
    decide
  · exact c4_roundtrip_amended (3 / 2) 1 (by decide) (by rw [hround]; decide)

/-- At scale 65536, the reference `FCOS` of fixed-point 0 is the encoding
of `cos 0 = 1`, namely 65536. -/
theorem refMathFx_fcos_zero : refMathFx .FCOS 0 65536 = 65536 := by
  show floatToFx (Real.cos (clampR (fxToFloat 0 65536) (-Real.pi) Real.pi)) 65536 = 65536
  have hx0 : fxToFloat (0 : Int) (65536 : ℝ) = 0 := by
    simp [fxToFloat]
  have hclamp : clampR 0 (-Real.pi) Real.pi = 0 := by
    unfold clampR
    rw [min_eq_right Real.pi_pos.le, max_eq_right (neg_nonpos.mpr Real.pi_pos.le)]
  rw [hx0, hclamp, Real.cos_zero]
  unfold floatToFx clampI
  have h1 : (1 : ℝ) * 65536 = ((65536 : Int) : ℝ) := by norm_num
  rw [h1, round_intCast]
  decide

/-- At scale 65536, the reference `FLN` of fixed-point 65536 (the
encoding of 1) is the encoding of `ln 1 = 0`, namely 0. -/
theorem refMathFx_fln_one : refMathFx .FLN 65536 65536 = 0 := by
  show (if fxToFloat 65536 65536 ≤ 0 then floatToFx (-16) 65536
    else floatToFx (clampR (Real.log (clampR (fxToFloat 65536 65536) (1 / 1000000) 256))
      (-16) 16) 65536) = 0
  have hx1 : fxToFloat (65536 : Int) (65536 : ℝ) = 1 := by
    unfold fxToFloat
    norm_num
  rw [hx1, if_neg (by norm_num)]
  have hclamp : clampR 1 (1 / 1000000) 256 = 1 := by
    unfold clampR
    rw [min_eq_right (by norm_num), max_eq_right (by norm_num)]
  rw [hclamp, Real.log_one]
  have hclamp0 : clampR 0 (-16) 16 = 0 := by
    unfold clampR
    rw [min_eq_right (by norm_num), max_eq_right (by norm_num)]
  rw [hclamp0]
  unfold floatToFx clampI
  have h0 : (0 : ℝ) * 65536 = ((0 : Int) : ℝ) := by norm_num
  rw [h0, round_intCast]
  decide

/-- At scale 65536 the fixed-point encoding of `-16` is `-1048576`. -/
theorem floatToFx_neg16 : floatToFx (-16) 65536 = -1048576 := by
  unfold floatToFx clampI
  have h1 : (-16 : ℝ) * 65536 = ((-1048576 : Int) : ℝ) := by norm_num
  rw [h1, round_intCast]
  decide

/-- C7: with scale 65536 and no unary provider attached, executing `FCOS`
on a register holding fixed-point 0 stores 65536 (the encoding of 1.0);
executing `FLN` on a register holding 65536 stores 0; and for every
fixed-point input whose decoded real value is ≤ 0, the reference `FLN`
and `FLOG10` return the fixed-point encoding of -16 (which is -1048576 at
this scale). -/
theorem c7_ref_math_scenario (cfg : Config) (s : CPUState) (r : Nat)
    (hmath : cfg.math = none) (hfx : cfg.fxScale = 65536) :
    (instrAt s = .fop .FCOS r → getReg s r = 0 →
      stepInstr cfg s = .ok (advance (setReg s r 65536))) ∧
    (instrAt s = .fop .FLN r → getReg s r = 65536 →
      stepInstr cfg s = .ok (advance (setReg s r 0))) ∧
    (∀ xFx : Int, fxToFloat xFx 65536 ≤ 0 →
      refMathFx .FLN xFx 65536 = floatToFx (-16) 65536 ∧
      refMathFx .FLOG10 xFx 65536 = floatToFx (-16) 65536) ∧
    floatToFx (-16) 65536 = -1048576 := by
  refine ⟨?_, ?_, ?_, floatToFx_neg16⟩
  · intro hinstr hr
    simp [stepInstr, hinstr, hmath, hfx, hr, refMathFx_fcos_zero]
  · intro hinstr hr
    simp [stepInstr, hinstr, hmath, hfx, hr, refMathFx_fln_one]
  · intro xFx hx
    constructor
    · show (if fxToFloat xFx 65536 ≤ 0 then floatToFx (-16) 65536
        else floatToFx (clampR (Real.log (clampR (fxToFloat xFx 65536) (1 / 1000000) 256))
          (-16) 16) 65536) = floatToFx (-16) 65536
      rw [if_pos hx]
    · show (if fxToFloat xFx 65536 ≤ 0 then floatToFx (-16) 65536
        else floatToFx (clampR (Real.logb 10 (clampR (fxToFloat xFx 65536) (1 / 1000000) 256))
          (-16) 16) 65536) = floatToFx (-16) 65536
      rw [if_pos hx]

/-- C7 witness: concrete runs of `FCOS` on 0 and `FLN` on 65536 with no
provider, and the saturating `FLN`/`FLOG10` value at the negative input
-3. -/
theorem c7_ref_math_scenario_witness :
    stepInstr cfg0 (mkState [0] [] [.fop .FCOS 0]) =
      .ok (advance (setReg (mkState [0] [] [.fop .FCOS 0]) 0 65536)) ∧
    stepInstr cfg0 (mkState [65536] [] [.fop .FLN 0]) =
      .ok (advance (setReg (mkState [65536] [] [.fop .FLN 0]) 0 0)) ∧
    refMathFx .FLN (-3) 65536 = -1048576 ∧
    refMathFx .FLOG10 (-3) 65536 = -1048576 := by
  have hneg : fxToFloat (-3 : Int) (65536 : ℝ) ≤ 0 := by
    unfold fxToFloat
    norm_num
  have h3 := (c7_ref_math_scenario cfg0 (mkState [0] [] [.fop .FCOS 0]) 0 rfl rfl).2.2.1
    (-3) hneg
  refine ⟨?_, ?_, ?_, ?_⟩
  · exact (c7_ref_math_scenario cfg0 (mkState [0] [] [.fop .FCOS 0]) 0 rfl rfl).1
      (by decide) (by decide)
  · exact (c7_ref_math_scenario cfg0 (mkState [65536] [] [.fop .FLN 0]) 0 rfl rfl).2.1
      (by decide) (by decide)
  · rw [h3.1, floatToFx_neg16]
  · rw [h3.2, floatToFx_neg16]

/-- Running a block of `n` consecutive `PUSH r` instructions (with room on
the data stack) advances the pointer by `n` and prepends `n` copies of the
register's value. -/
theorem loop_push_run (cfg : Config) (maxSteps : Nat) (r : Nat) :
    ∀ (n : Nat) (steps : Nat) (s : CPUState),
      s.running = true →
      (∀ i, i < n → s.instructions[s.pointer + i]? = some (.push r)) →
      s.dataStack.length + n ≤ s.dataStackMax →
      steps + n ≤ maxSteps + 1 →
      loop cfg maxSteps steps s =
        loop cfg maxSteps (steps + n)
          { s with pointer := s.pointer + n,
                   dataStack := List.replicate n (getReg s r) ++ s.dataStack } := by
  intro n
  induction n with
  | zero =>
      intro steps s _ _ _ _
      simp
  | succ n ih =>
      intro steps s hrun hins hstack hsteps
      have h0 : s.instructions[s.pointer]? = some (.push r) := by
        have := hins 0 (Nat.succ_pos n)
        simpa using this
      have hp : s.pointer < s.instructions.length := by
        rcases List.getElem?_eq_some.mp h0 with ⟨h, _⟩
        exact h
      have hfetch : instrAt s = .push r := by
        unfold instrAt
        rw [List.getD_eq_getElem?_getD, h0]
        rfl
      have hnot : ¬ (s.dataStack.length ≥ s.dataStackMax) := by omega
      have hstep : stepInstr cfg s =
          .ok (advance { s with dataStack := getReg s r :: s.dataStack }) := by
        simp [stepInstr, hfetch, hnot]
      rw [loop_cont cfg maxSteps steps s _ hrun hp (by omega) hstep]
      have hrec := ih (steps + 1) (advance { s with dataStack := getReg s r :: s.dataStack })
        (by simpa [advance] using hrun)
        (by
          intro i hi
          have h := hins (i + 1) (by omega)
          have harith : s.pointer + 1 + i = s.pointer + (i + 1) := by omega
          simpa [advance, harith] using h)
        (by simp [advance]; omega)
        (by omega)
      rw [hrec]
      congr 1
      · omega
      · simp only [advance, getReg]
        congr 1
        · omega
        · rw [List.append_cons, ← List.replicate_succ']

/-- Running a block of `n` consecutive `POP r` instructions when the data
stack starts with `n` values advances the pointer by `n` and drops those
values, leaving only the register file unspecified. -/
theorem loop_pop_run (cfg : Config) (maxSteps : Nat) (r : Nat) :
    ∀ (n : Nat) (steps : Nat) (s : CPUState) (vals rest : List Int),
      s.running = true →
      s.dataStack = vals ++ rest →
      vals.length = n →
      (∀ i, i < n → s.instructions[s.pointer + i]? = some (.pop r)) →
      steps + n ≤ maxSteps + 1 →
      ∃ regs', loop cfg maxSteps steps s =
        loop cfg maxSteps (steps + n)
          { s with pointer := s.pointer + n, dataStack := rest, regs := regs' } := by
  intro n
  induction n with
  | zero =>
      intro steps s vals rest _ hds hlen _ _
      refine ⟨s.regs, ?_⟩
      have hvals : vals = [] := List.length_eq_zero.mp hlen
      subst hvals
      simp only [List.nil_append] at hds
      rw [← hds]
      simp
  | succ n ih =>
      intro steps s vals rest hrun hds hlen hins hsteps
      rcases vals with _ | ⟨v, vs⟩
      · simp at hlen
      have h0 : s.instructions[s.pointer]? = some (.pop r) := by
        have := hins 0 (Nat.succ_pos n)
        simpa using this
      have hp : s.pointer < s.instructions.length := by
        rcases List.getElem?_eq_some.mp h0 with ⟨h, _⟩
        exact h
      have hfetch : instrAt s = .pop r := by
        unfold instrAt
        rw [List.getD_eq_getElem?_getD, h0]
        rfl
      have hstep : stepInstr cfg s =
          .ok (advance (setReg { s with dataStack := vs ++ rest } r v)) := by
        simp [stepInstr, hfetch, hds]
      rw [loop_cont cfg maxSteps steps s _ hrun hp (by omega) hstep]
      have hrec := ih (steps + 1) (advance (setReg { s with dataStack := vs ++ rest } r v))
        vs rest (by simpa [advance, setReg] using hrun) rfl (by simpa using hlen)
        (by
          intro i hi
          have h := hins (i + 1) (by omega)
          have harith : s.pointer + 1 + i = s.pointer + (i + 1) := by omega
          simpa [advance, setReg, harith] using h)
        (by omega)
      rcases hrec with ⟨regs', hrec⟩
      refine ⟨regs', ?_⟩
      rw [hrec]
      congr 1
      · omega
      · simp only [advance, setReg]
        congr 1
        omega

/-- C6: pushing onto a full data stack is the fatal overflow error;
popping an empty data stack is the fatal underflow error; and a program of
`N` `PUSH`es followed by `N` `POP`s (run by `execute` with enough head
room and steps) terminates normally with the data stack exactly as it
started. -/
theorem c6_stack_discipline (cfg : Config) (s : CPUState) :
    (∀ r, instrAt s = .push r → s.dataStack.length ≥ s.dataStackMax →
      stepInstr cfg s = .error .stackOverflow) ∧
    (∀ r, instrAt s = .pop r → s.dataStack = [] →
      stepInstr cfg s = .error .stackUnderflow) ∧
    (∀ (r N maxSteps : Nat),
      s.instructions = List.replicate N (.push r) ++ List.replicate N (.pop r) →
      s.dataStack.length + N ≤ s.dataStackMax →
      2 * N ≤ maxSteps + 1 →
      ∃ t, execute cfg s maxSteps = .ok (t, 2 * N) ∧ t.dataStack = s.dataStack) := by
  refine ⟨?_, ?_, ?_⟩
  · intro r hinstr hfull
    simp [stepInstr, hinstr, hfull]
  · intro r hinstr hempty
    simp [stepInstr, hinstr, hempty]
  · intro r N maxSteps hprog hroom hsteps
    unfold execute
    set s1 : CPUState :=
      { s with labelMap := buildLabelMap s.instructions, pointer := 0, running := true }
      with hs1
    have hpush := loop_push_run cfg maxSteps r N 0 s1 rfl
      (by
        intro i hi
        simp only [hs1, hprog]
        rw [List.getElem?_append]
        simp [hi])
      (by simpa [hs1] using hroom)
      (by omega)
    rw [hpush]
    set s2 : CPUState :=
      { s1 with pointer := 0 + N,
                dataStack := List.replicate N (getReg s1 r) ++ s1.dataStack }
      with hs2
    have hpop := loop_pop_run cfg maxSteps r N (0 + N) s2
      (List.replicate N (getReg s1 r)) s1.dataStack rfl
      (by simp [hs2])
      (by simp)
      (by
        intro i hi
        simp only [hs2, hs1, hprog]
        have hge : (List.replicate N (Instr.push r)).length ≤ 0 + N + i := by
          simp
        rw [List.getElem?_append_right hge]
        simp [hi])
      (by omega)
    rcases hpop with ⟨regs', hpop⟩
    rw [hpop]
    rw [show 0 + N + N = 2 * N from by omega]
    rw [loop_done cfg maxSteps (2 * N)
      { s2 with pointer := 2 * N, dataStack := s1.dataStack, regs := regs' }
      (by
        simp only [hs2, hs1, not_and, not_lt, hprog, List.length_append,
          List.length_replicate]
        intro _
        omega)]
    exact ⟨_, rfl, rfl⟩

/-- C6 witness: overflow on a zero-capacity stack, underflow on an empty
stack, and a concrete `2×PUSH; 2×POP` program that leaves the stack
`[9]` unchanged. -/
theorem c6_stack_discipline_witness :
    stepInstr cfg0 { mkState [7] [] [.push 0] with dataStackMax := 0 } =
      .error .stackOverflow ∧
    stepInstr cfg0 (mkState [7] [] [.pop 0]) = .error .stackUnderflow ∧
    ∃ t, execute cfg0
        { mkState [7] [] [.push 0, .push 0, .pop 0, .pop 0] with dataStack := [9] } 4 =
      .ok (t, 4) ∧ t.dataStack = [9] := by
  refine ⟨?_, ?_, ?_⟩
  · exact (c6_stack_discipline cfg0
      { mkState [7] [] [.push 0] with dataStackMax := 0 }).1 0 (by decide) (by decide)
  · exact (c6_stack_discipline cfg0 (mkState [7] [] [.pop 0])).2.1 0 (by decide) (by decide)
  · have h := (c6_stack_discipline cfg0
      { mkState [7] [] [.push 0, .push 0, .pop 0, .pop 0] with dataStack := [9] }).2.2
      0 2 4 (by decide) (by decide) (by decide)
    simpa using h

/-- The loop's final step counter never exceeds `max (maxSteps + 1) steps`
on a normal exit. -/
theorem loop_ok_le (cfg : Config) (maxSteps : Nat) :
    ∀ (k steps : Nat) (s t : CPUState) (n : Nat),
      maxSteps + 1 - steps ≤ k →
      loop cfg maxSteps steps s = .ok (t, n) →
      n ≤ max (maxSteps + 1) steps := by
  intro k
  induction k with
  | zero =>
      intro steps s t n hk hloop
      by_cases hc : s.running = true ∧ s.pointer < s.instructions.length
      · have hgt : steps > maxSteps := by omega
        rw [loop_runaway cfg maxSteps steps s hc.1 hc.2 hgt] at hloop
        cases hloop
      · rw [loop_done cfg maxSteps steps s hc] at hloop
        simp only [Except.ok.injEq, Prod.mk.injEq] at hloop
        omega
  | succ k ih =>
      intro steps s t n hk hloop
      by_cases hc : s.running = true ∧ s.pointer < s.instructions.length
      · by_cases hgt : steps > maxSteps
        · rw [loop_runaway cfg maxSteps steps s hc.1 hc.2 hgt] at hloop
          cases hloop
        · cases hstep : stepInstr cfg s with
          | error e =>
              rw [loop_err cfg maxSteps steps s e hc.1 hc.2 (by omega) hstep] at hloop
              cases hloop
          | ok s' =>
              rw [loop_cont cfg maxSteps steps s s' hc.1 hc.2 (by omega) hstep] at hloop
              have := ih (steps + 1) s' t n (by omega) hloop
              omega
      · rw [loop_done cfg maxSteps steps s hc] at hloop
        simp only [Except.ok.injEq, Prod.mk.injEq] at hloop
        omega

/-- A one-instruction program run with `maxSteps = 0` completes normally
after executing that one instruction: the dispatch loop's check
`steps++ > maxSteps` lets iteration `maxSteps + 1` through. -/
theorem exec_one_load :
    ∃ t, execute cfg0 (mkState [0] [] [.loadImm 0 5]) 0 = .ok (t, 1) ∧
      getReg t 0 = 5 ∧ t.running = true := by
  unfold execute
  set s1 : CPUState := { mkState [0] [] [.loadImm 0 5] with
    labelMap := buildLabelMap (mkState [0] [] [.loadImm 0 5]).instructions,
    pointer := 0, running := true } with hs1
  have hstep : stepInstr cfg0 s1 = .ok (advance (setReg s1 0 5)) := by
    simp [stepInstr, instrAt, hs1, mkState]
  rw [loop_cont cfg0 0 0 s1 _ rfl (by simp [hs1, mkState]) (by omega) hstep]
  rw [loop_done cfg0 0 1 _ (by simp [advance, setReg, hs1, mkState])]
  exact ⟨_, rfl, rfl, rfl⟩

/-- C8 counterexample: with `maxSteps = 0` the machine still executes one
instruction (the loop's post-increment check `steps++ > maxSteps` only
trips on the following fetch) and completes without any error, refuting
"at most maxSteps instructions, exceeding raises a fatal error". -/
theorem c8_maxsteps_counterexample :
    ∃ t, execute cfg0 (mkState [0] [] [.loadImm 0 5]) 0 = .ok (t, 1) ∧
      getReg t 0 = 5 ∧ t.running = true :=
  exec_one_load

/-- C8 (amended): execution with a caller-supplied `maxSteps` executes at
most `maxSteps + 1` instructions — the counter is checked once per fetched
instruction against the count of previously begun iterations, and any
still-running in-bounds state whose counter already exceeds `maxSteps`
raises the fatal runaway error instead of dispatching. -/
theorem c8_maxsteps_bound_amended (cfg : Config) (s : CPUState) (maxSteps : Nat) :
    (∀ t n, execute cfg s maxSteps = .ok (t, n) → n ≤ maxSteps + 1) ∧
    (∀ (steps : Nat) (s' : CPUState), s'.running = true →
      s'.pointer < s'.instructions.length → steps > maxSteps →
      loop cfg maxSteps steps s' = .error .maxStepsExceeded) := by
  constructor
  · intro t n hexec
    unfold execute at hexec
    have := loop_ok_le cfg maxSteps (maxSteps + 1) 0 _ t n (by omega) hexec
    omega
  · intro steps s' hr hp hgt
    exact loop_runaway cfg maxSteps steps s' hr hp hgt

/-- C8 witness: the concrete one-instruction run at `maxSteps = 0`
finishes with counter `1 ≤ 0 + 1`, matching the amended bound. -/
theorem c8_maxsteps_bound_amended_witness :
    ∃ t n, execute cfg0 (mkState [0] [] [.loadImm 0 5]) 0 = .ok (t, n) ∧ n ≤ 0 + 1 := by
  obtain ⟨t, hexec, _, _⟩ := exec_one_load
  exact ⟨t, 1, hexec,
    (c8_maxsteps_bound_amended cfg0 (mkState [0] [] [.loadImm 0 5]) 0).1 t 1 hexec⟩

/-- `clamp` is the identity on values already inside the range. -/
theorem clampR_of_mem (x lo hi : ℝ) (h1 : lo ≤ x) (h2 : x ≤ hi) : clampR x lo hi = x := by
  unfold clampR
  rw [min_eq_right h2, max_eq_right h1]

/-- At scale 1 the encoder is just rounding (when inside the clamp range). -/
theorem floatToFx_scale_one (x : ℝ) (n : Int) (hround : round x = n)
    (hn : |n| ≤ MAX_FX) : floatToFx x 1 = n := by
  unfold floatToFx clampI
  rw [mul_one, hround]
  have := abs_le.mp hn
  omega

/-- A NARX math provider at scale 1 with pure-neural mix, fallback
disabled, default op ranges, and a net whose output is a simple function
of the previous output lag: `forward [i₁, o₁] = o₁ / 4 + 1/4`. -/
noncomputable def mp0 : NarxProvider :=
  { scale := 1, mix := 1, safetyFallback := false, fallbackAbsError := 1 / 1000,
    opSpec := defaultOpSpecs,
    forward := fun _ v => v.getD 1 0 / 4 + 1 / 4 }

/-- Fresh per-op NARX histories with `inputLag = outputLag = 1`. -/
noncomputable def st0 : FOp → NarxHist := fun _ => ⟨[0], [0]⟩

/-- Evaluation of one `FSQRT 0` call of `mp0` from a state whose `FSQRT`
histories are `⟨[0], [o]⟩`. -/
theorem narx_mp0_eval (st : FOp → NarxHist) (o : ℝ) (hst : st .FSQRT = ⟨[0], [o]⟩)
    (ho0 : 0 ≤ o) (ho1 : o ≤ 1) :
    (narxComputeDetailed mp0 .FSQRT 0 st).1.result = floatToFx ((o / 4 + 1 / 4) * 16) 1 ∧
    (narxComputeDetailed mp0 .FSQRT 0 st).2 =
      Function.update st .FSQRT ⟨[0], [o / 4 + 1 / 4]⟩ := by
  have hx : fxToFloat (0 : Int) (1 : ℝ) = 0 := by
    simp [fxToFloat]
  have hin : encodeNormFromRange 0 0 256 = 0 := by
    unfold encodeNormFromRange
    rw [if_pos (by norm_num)]
    unfold clampR
    norm_num
  have hc256 : clampR 0 0 256 = 0 := clampR_of_mem 0 0 256 le_rfl (by norm_num)
  have hc16 : clampR 0 0 16 = 0 := clampR_of_mem 0 0 16 le_rfl (by norm_num)
  have hrefl : refMathFxNarx .FSQRT 0 1 = 0 := by
    show floatToFx (clampR (if clampR (fxToFloat 0 1) 0 256 ≤ 0 then 0
        else Real.sqrt (clampR (fxToFloat 0 1) 0 256)) 0 16) 1 = 0
    rw [hx, hc256, if_pos le_rfl, hc16]
    exact floatToFx_scale_one 0 0 (by simp) (by decide)
  have hexn : encodeNormFromRange 0 0 16 = 0 := by
    unfold encodeNormFromRange
    rw [if_pos (by norm_num)]
    unfold clampR
    norm_num
  have hyc : clampR (o / 4 + 1 / 4) 0 1 = o / 4 + 1 / 4 :=
    clampR_of_mem _ 0 1 (by linarith) (by linarith)
  have hkey : (0 : ℝ) * (1 - 1) + (o / 4 + 1 / 4) * 1 = o / 4 + 1 / 4 := by ring
  have hdec : decodeNormToRange (o / 4 + 1 / 4) 0 16 = (o / 4 + 1 / 4) * 16 := by
    unfold decodeNormToRange
    rw [hyc]
    ring
  constructor
  · simp only [narxComputeDetailed, mp0, defaultOpSpecs, hst, hx, hin, hrefl, hexn]
    simp only [List.dropLast_single, List.cons_append, List.nil_append, List.getD_cons_succ,
      List.getD_cons_zero, Bool.false_eq_true, false_and, if_false, hkey, hyc, hdec]
  · simp only [narxComputeDetailed, mp0, defaultOpSpecs, hst, hx, hin, hrefl, hexn]
    simp only [List.dropLast_single, List.cons_append, List.nil_append, List.getD_cons_succ,
      List.getD_cons_zero, Bool.false_eq_true, false_and, if_false, hkey, hyc]

/-- C10: each `NeuralMathNARX.computeDetailed` call shifts the per-op
input and output lag histories (the new input norm and clamped output
norm are pushed in front, the oldest entries dropped), so `compute` is not
a function of `(op, x)` alone: under `mp0` two consecutive `FSQRT` calls
on the identical fixed-point input 0 return 4 and then 5, because the
second call sees the first call's output in its lag history. -/
theorem c10_narx_stateful :
    (∀ (mp : NarxProvider) (op : FOp) (xFx : Int) (st : FOp → NarxHist),
      ((narxComputeDetailed mp op xFx st).2 op).inHist =
        encodeNormFromRange (fxToFloat xFx mp.scale)
          (mp.opSpec op).inLo (mp.opSpec op).inHi :: (st op).inHist.dropLast ∧
      ((narxComputeDetailed mp op xFx st).2 op).outHist =
        clampR (narxComputeDetailed mp op xFx st).1.outNorm 0 1 ::
          (st op).outHist.dropLast) ∧
    (narxComputeDetailed mp0 .FSQRT 0 st0).1.result = 4 ∧
    (narxComputeDetailed mp0 .FSQRT 0 ((narxComputeDetailed mp0 .FSQRT 0 st0).2)).1.result = 5 := by
  have h1 := narx_mp0_eval st0 0 rfl le_rfl (by norm_num)
  have hst1 : (narxComputeDetailed mp0 .FSQRT 0 st0).2 .FSQRT = ⟨[0], [1 / 4]⟩ := by
    rw [h1.2]
    rw [show (0 : ℝ) / 4 + 1 / 4 = 1 / 4 from by ring]
    exact Function.update_same _ _ _
  have h2 := narx_mp0_eval ((narxComputeDetailed mp0 .FSQRT 0 st0).2) (1 / 4) hst1
    (by norm_num) (by norm_num)
  refine ⟨?_, ?_, ?_⟩
  · intro mp op xFx st
    refine ⟨?_, ?_⟩ <;> simp [narxComputeDetailed, Function.update_same]
  · rw [h1.1]
    apply floatToFx_scale_one
    · rw [show ((0 : ℝ) / 4 + 1 / 4) * 16 = 4 from by ring]
      rw [show (4 : ℝ) = ((4 : Int) : ℝ) from by norm_num]
      exact round_intCast 4
    · decide
  · rw [h2.1]
    apply floatToFx_scale_one
    · rw [show ((1 / 4 : ℝ) / 4 + 1 / 4) * 16 = 5 from by ring]
      rw [show (5 : ℝ) = ((5 : Int) : ℝ) from by norm_num]
      exact round_intCast 5
    · decide

end PL0
